import Mathlib

/-!
Verification development for the transaction-request data model of the
miden-client repository (crates/rust-client/src/transactions/request.rs).

The Rust code is shallowly embedded: `BTreeMap` is modelled as a sorted
association list over `Nat` keys, field elements and digests as `Nat`,
byte streams as `List Nat`, and fallible operations as `Except`.
External collaborator types (Note, NoteDetails, PartialNote,
TransactionScript, MerkleStore, AdviceMap) are out of scope of the
repository and are modelled with the interface the request code consumes:
an id/content accessor, structural equality, and a self-contained
serialization. Following the source's own documentation ("Because
[TransactionScript] does not deserialize exactly into the original object,
they are not directly comparable right now"), the modelled script codec
preserves the script's content commitment (`hash`) but not its structural
representation.
-/

namespace MidenRequest

/-- NoteId: content-derived identifier, totally ordered; modelled as Nat. -/
abbrev NoteId := Nat

/-- Felt: a field element, modelled as Nat. -/
abbrev Felt := Nat

/-- Digest: a content digest, modelled as Nat. -/
abbrev Digest := Nat

/-- NoteArgs = Word: a fixed 4-element field-element tuple. -/
structure NoteArgs where
  w0 : Felt
  w1 : Felt
  w2 : Felt
  w3 : Felt
deriving DecidableEq, Repr

/-- External collaborator: a full Note. The request code only consumes its
id accessor, structural equality and serialization; content beyond the id
is collapsed into one field. -/
structure Note where
  noteId : NoteId
  content : Nat
deriving DecidableEq, Repr

/-- The id accessor of a Note (Rust: `note.id()`). -/
def Note.id (n : Note) : NoteId := n.noteId

/-- External collaborator: NoteDetails (predicts a future note's identity). -/
structure NoteDetails where
  noteId : NoteId
  info : Nat
deriving DecidableEq, Repr

/-- The id accessor of NoteDetails. -/
def NoteDetails.id (d : NoteDetails) : NoteId := d.noteId

/-- External collaborator: PartialNote (a note missing execution-time-only
fields). -/
structure PartialNote where
  noteId : NoteId
  content : Nat
deriving DecidableEq, Repr

/-- Conversion Note → PartialNote (Rust: `note.into()`). -/
def Note.toPartialNote (n : Note) : PartialNote :=
  { noteId := n.noteId, content := n.content }

/-- External collaborator: a compiled TransactionScript, exposing a stable
content-commitment accessor `hash` and an internal structural
representation `repr` that is not preserved by decompilation. -/
structure TransactionScript where
  hash : Digest
  srepr : Nat
deriving DecidableEq, Repr

/-- OutputNote: a transaction's expected output, represented fully,
partially, or as header-only. -/
inductive OutputNote where
  | Full (n : Note)
  | Part (p : PartialNote)
  | Header (h : Nat)
deriving DecidableEq, Repr

/-- TransactionScriptTemplate: the script-template sum type of the source's
`enum TransactionScriptTemplate`. The Rust `Option<TransactionScriptTemplate>`
field is modelled as `Option TransactionScriptTemplate` with `none` = Unset. -/
inductive TransactionScriptTemplate where
  | CustomScript (script : TransactionScript)
  | SendNotes (notes : List PartialNote)
deriving DecidableEq, Repr

-- SORTED ASSOCIATION LIST MODEL OF BTreeMap
-- =========================================

/-- Insert into a sorted association list, overwriting any prior value for
the key (Rust: `BTreeMap::insert`). -/
def mapInsert (k : Nat) (v : α) : List (Nat × α) → List (Nat × α)
  | [] => [(k, v)]
  | (k', v') :: rest =>
    if k < k' then (k, v) :: (k', v') :: rest
    else if k = k' then (k, v) :: rest
    else (k', v') :: mapInsert k v rest

/-- Keys of an association list (Rust: `BTreeMap::keys`). -/
def mapKeys (m : List (Nat × α)) : List Nat := m.map Prod.fst

/-- Lookup in an association list (first matching key). -/
def mapLookup (k : Nat) : List (Nat × α) → Option α
  | [] => none
  | (k', v) :: rest => if k' = k then some v else mapLookup k rest

/-- Build a map from a list of pairs by repeated insertion
(Rust: `BTreeMap::from_iter` / `collect`). -/
def mapFromList (l : List (Nat × α)) : List (Nat × α) :=
  l.foldl (fun m p => mapInsert p.1 p.2 m) []

/-- Well-formedness of the map representation: keys strictly increasing. -/
def MapSorted (m : List (Nat × α)) : Prop :=
  m.Pairwise (fun p q => p.1 < q.1)

instance (m : List (Nat × α)) : Decidable (MapSorted m) := by
  unfold MapSorted; infer_instance

-- ADVICE MAP MODEL
-- ================

/-- External collaborator: the AdviceMap, a key/value store keyed by digest
supporting merge (`extend`) and full iteration. Modelled as an association
list with insertion order preserved and unique keys maintained by insertion. -/
abbrev AdviceMap := List (Digest × List Felt)

/-- Insert into the advice map, replacing the value in place when the key
is already present. -/
def adviceInsert (k : Digest) (v : List Felt) : AdviceMap → AdviceMap
  | [] => [(k, v)]
  | (k', v') :: rest =>
    if k = k' then (k, v) :: rest else (k', v') :: adviceInsert k v rest

/-- Merge a sequence of entries into the advice map (Rust: `AdviceMap::extend`). -/
def adviceExtend (m : AdviceMap) (entries : List (Digest × List Felt)) : AdviceMap :=
  entries.foldl (fun m p => adviceInsert p.1 p.2 m) m

/-- Get the value stored for a digest (Rust: `AdviceMap::get`). -/
def adviceGet (k : Digest) : AdviceMap → Option (List Felt)
  | [] => none
  | (k', v) :: rest => if k' = k then some v else adviceGet k rest

/-- External collaborator: the MerkleStore, a collection of inner-node
records supporting merge and its own serialization; modelled as the list of
records it holds. -/
abbrev MerkleStore := List Nat

-- TRANSACTION REQUEST ERROR
-- =========================

/-- The error taxonomy of `enum TransactionRequestError`; external error
payloads (AccountId, AssemblyError, NoteError) are modelled as Nat. -/
inductive TransactionRequestError where
  | InputNoteNotAuthenticated
  | InputNotesMapMissingUnauthenticatedNotes
  | InvalidNoteVariant
  | InvalidSenderAccount (accountId : Nat)
  | InvalidTransactionScript (err : Nat)
  | NoInputNotes
  | ScriptTemplateError (msg : String)
  | NoteNotFound (msg : String)
  | NoteCreationError (err : Nat)
deriving DecidableEq, Repr

-- TRANSACTION REQUEST
-- ===================

/-- The TransactionRequest aggregate, mirroring the source struct field by
field. -/
structure TransactionRequest where
  unauthenticated_input_notes : List Note
  input_notes : List (NoteId × Option NoteArgs)
  script_template : Option TransactionScriptTemplate
  expected_output_notes : List (NoteId × Note)
  expected_future_notes : List (NoteId × NoteDetails)
  advice_map : AdviceMap
  merkle_store : MerkleStore
deriving DecidableEq, Repr

namespace TransactionRequest

/-- Constructor `TransactionRequest::new()`. -/
def new : TransactionRequest :=
  { unauthenticated_input_notes := []
    input_notes := []
    script_template := none
    expected_output_notes := []
    expected_future_notes := []
    advice_map := []
    merkle_store := [] }

/-- One iteration of the `with_unauthenticated_input_notes` loop: insert the
note's id and args into `input_notes` and push the note onto the
unauthenticated list. -/
def unauthStep (tr : TransactionRequest) (p : Note × Option NoteArgs) :
    TransactionRequest :=
  { tr with
    input_notes := mapInsert p.1.id p.2 tr.input_notes
    unauthenticated_input_notes := tr.unauthenticated_input_notes ++ [p.1] }

/-- Builder `with_unauthenticated_input_notes`. -/
def with_unauthenticated_input_notes (tr : TransactionRequest)
    (notes : List (Note × Option NoteArgs)) : TransactionRequest :=
  notes.foldl unauthStep tr

/-- Builder `with_authenticated_input_notes`: inserts into `input_notes` only. -/
def with_authenticated_input_notes (tr : TransactionRequest)
    (notes : List (NoteId × Option NoteArgs)) : TransactionRequest :=
  notes.foldl (fun tr p => { tr with input_notes := mapInsert p.1 p.2 tr.input_notes }) tr

/-- The loop body of `with_own_output_notes`: registers each full note in
`expected_output_notes` as it iterates and collects the partial forms,
returning `InvalidNoteVariant` at the first header-only note. -/
def ownNotesLoop (tr : TransactionRequest) (own : List PartialNote) :
    List OutputNote →
    Except TransactionRequestError (TransactionRequest × List PartialNote)
  | [] => .ok (tr, own)
  | .Full n :: rest =>
    ownNotesLoop
      { tr with expected_output_notes := mapInsert n.id n tr.expected_output_notes }
      (own ++ [n.toPartialNote]) rest
  | .Part p :: rest => ownNotesLoop tr (own ++ [p]) rest
  | .Header _ :: _ => .error .InvalidNoteVariant

/-- Builder `with_own_output_notes`: fails with `ScriptTemplateError` when a
template is already set; otherwise runs the registration loop and, on
success, sets the template to `SendNotes`. -/
def with_own_output_notes (tr : TransactionRequest) (notes : List OutputNote) :
    Except TransactionRequestError TransactionRequest :=
  if tr.script_template.isSome then
    .error (.ScriptTemplateError
      "Cannot set own notes when a script template is already set")
  else
    match ownNotesLoop tr [] notes with
    | .error e => .error e
    | .ok (tr', own) =>
      .ok { tr' with script_template := some (.SendNotes own) }

/-- Builder `with_custom_script`: fails with `ScriptTemplateError` when a
template is already set. -/
def with_custom_script (tr : TransactionRequest) (script : TransactionScript) :
    Except TransactionRequestError TransactionRequest :=
  if tr.script_template.isSome then
    .error (.ScriptTemplateError
      "Cannot set custom script when a script template is already set")
  else
    .ok { tr with script_template := some (.CustomScript script) }

/-- Builder `with_expected_output_notes`: wholesale replaces the map. -/
def with_expected_output_notes (tr : TransactionRequest) (notes : List Note) :
    TransactionRequest :=
  { tr with expected_output_notes := mapFromList (notes.map fun n => (n.id, n)) }

/-- Builder `with_expected_future_notes`: wholesale replaces the map. -/
def with_expected_future_notes (tr : TransactionRequest) (notes : List NoteDetails) :
    TransactionRequest :=
  { tr with expected_future_notes := mapFromList (notes.map fun d => (d.id, d)) }

/-- Builder `extend_advice_map`: additive merge into the advice map. -/
def extend_advice_map (tr : TransactionRequest)
    (entries : List (Digest × List Felt)) : TransactionRequest :=
  { tr with advice_map := adviceExtend tr.advice_map entries }

/-- Builder `extend_merkle_store`: additive merge into the merkle store. -/
def extend_merkle_store (tr : TransactionRequest) (entries : List Nat) :
    TransactionRequest :=
  { tr with merkle_store := tr.merkle_store ++ entries }

/-- Accessor `unauthenticated_input_note_ids()`. -/
def unauthenticated_input_note_ids (tr : TransactionRequest) : List NoteId :=
  tr.unauthenticated_input_notes.map Note.id

/-- Accessor `authenticated_input_note_ids()`: iterates the keys of
`input_notes` and filters out the ids of the unauthenticated notes,
recomputed from the two fields on each call. -/
def authenticated_input_note_ids (tr : TransactionRequest) : List NoteId :=
  (tr.input_notes.map Prod.fst).filter
    (fun i => decide (i ∉ tr.unauthenticated_input_note_ids))

/-- Accessor `get_input_note_ids()`. -/
def get_input_note_ids (tr : TransactionRequest) : List NoteId :=
  mapKeys tr.input_notes

/-- Accessor `get_note_args()`: only the entries whose args are defined. -/
def get_note_args (tr : TransactionRequest) : List (NoteId × NoteArgs) :=
  tr.input_notes.filterMap fun p => p.2.map fun a => (p.1, a)

end TransactionRequest

-- SERIALIZATION CODEC
-- ===================

/-- Stream-level deserialization errors (Rust: `DeserializationError`). -/
inductive DeserializationError where
  | InvalidValue (msg : String)
  | UnexpectedEOF
deriving DecidableEq, Repr

/-- A byte stream is modelled as a list of Nat tokens. -/
abbrev Stream := List Nat

/-- A reader consumes a prefix of the stream or fails. -/
abbrev Reader (α : Type) := Stream → Except DeserializationError (α × Stream)

/-- Read one token (Rust: `read_u8` and the other primitive reads). -/
def readTok : Reader Nat
  | [] => .error .UnexpectedEOF
  | b :: rest => .ok (b, rest)

/-- Write one token. -/
def writeTok (b : Nat) : Stream := [b]

/-- Length-prefixed vector encoding (Rust: `Vec::write_into`). -/
def writeVec (wr : α → Stream) (xs : List α) : Stream :=
  xs.length :: (xs.map wr).flatten

/-- Read exactly n elements. -/
def readN (rd : Reader α) : Nat → Reader (List α)
  | 0, s => .ok ([], s)
  | Nat.succ k, s =>
    match rd s with
    | .error e => .error e
    | .ok (x, s') =>
      match readN rd k s' with
      | .error e => .error e
      | .ok (xs, s'') => .ok (x :: xs, s'')

/-- Length-prefixed vector decoding (Rust: `Vec::read_from`). -/
def readVec (rd : Reader α) : Reader (List α)
  | [] => .error .UnexpectedEOF
  | n :: rest => readN rd n rest

/-- Option encoding: a bool tag then the value. -/
def writeOpt (wr : α → Stream) : Option α → Stream
  | none => [0]
  | some a => 1 :: wr a

/-- Option decoding; an invalid bool tag is a stream-corruption error. -/
def readOpt (rd : Reader α) : Reader (Option α)
  | [] => .error .UnexpectedEOF
  | 0 :: rest => .ok (none, rest)
  | 1 :: rest =>
    match rd rest with
    | .error e => .error e
    | .ok (a, s) => .ok (some a, s)
  | _ :: _ => .error (.InvalidValue "Invalid option tag")

/-- NoteArgs (Word) codec: the four field elements in order. -/
def writeArgs (a : NoteArgs) : Stream := [a.w0, a.w1, a.w2, a.w3]

/-- Read a NoteArgs word. -/
def readArgs : Reader NoteArgs
  | a :: b :: c :: d :: rest => .ok (⟨a, b, c, d⟩, rest)
  | _ => .error .UnexpectedEOF

/-- Note codec (external, self-contained). -/
def writeNote (n : Note) : Stream := [n.noteId, n.content]

/-- Read a Note. -/
def readNote : Reader Note
  | i :: c :: rest => .ok (⟨i, c⟩, rest)
  | _ => .error .UnexpectedEOF

/-- NoteDetails codec (external, self-contained). -/
def writeDetails (d : NoteDetails) : Stream := [d.noteId, d.info]

/-- Read a NoteDetails. -/
def readDetails : Reader NoteDetails
  | i :: c :: rest => .ok (⟨i, c⟩, rest)
  | _ => .error .UnexpectedEOF

/-- PartialNote codec (external, self-contained). -/
def writePart (p : PartialNote) : Stream := [p.noteId, p.content]

/-- Read a PartialNote. -/
def readPart : Reader PartialNote
  | i :: c :: rest => .ok (⟨i, c⟩, rest)
  | _ => .error .UnexpectedEOF

/-- TransactionScript serialization (external, self-contained). -/
def writeScript (s : TransactionScript) : Stream := [s.hash, s.srepr]

/-- TransactionScript deserialization. Per the source's documentation the
script does not deserialize exactly into the original object: the content
commitment is preserved, the structural representation is renormalized. -/
def readScript : Reader TransactionScript
  | h :: _ :: rest => .ok (⟨h, 0⟩, rest)
  | _ => .error .UnexpectedEOF

/-- Association-list value-pair codec: key token then the value. -/
def writePair (wr : α → Stream) (p : Nat × α) : Stream := p.1 :: wr p.2

/-- Read a (key, value) pair. -/
def readPair (rd : Reader α) : Reader (Nat × α)
  | [] => .error .UnexpectedEOF
  | k :: rest =>
    match rd rest with
    | .error e => .error e
    | .ok (v, s) => .ok ((k, v), s)

/-- BTreeMap encoding: length-prefixed association list in key order
(the map representation is already sorted for reachable requests). -/
def writeMap (wr : α → Stream) (m : List (Nat × α)) : Stream :=
  writeVec (writePair wr) m

/-- BTreeMap decoding: read the pair list and collect it into a map by
repeated insertion (Rust: `BTreeMap::read_from` via `FromIterator`). -/
def readMap (rd : Reader α) : Reader (List (Nat × α)) := fun s =>
  match readVec (readPair rd) s with
  | .error e => .error e
  | .ok (l, s') => .ok (mapFromList l, s')

/-- Script-template encoding: one discriminant byte, 0 = Unset,
1 = CustomScript followed by the script, 2 = SendNotes followed by a
length-prefixed list of partial notes. -/
def writeTemplate : Option TransactionScriptTemplate → Stream
  | none => [0]
  | some (.CustomScript script) => 1 :: writeScript script
  | some (.SendNotes notes) => 2 :: writeVec writePart notes

/-- Script-template decoding: mirrors the encoding and rejects any other
discriminant with a descriptive `InvalidValue` error. -/
def readTemplate : Reader (Option TransactionScriptTemplate)
  | [] => .error .UnexpectedEOF
  | 0 :: rest => .ok (none, rest)
  | 1 :: rest =>
    match readScript rest with
    | .error e => .error e
    | .ok (script, s) => .ok (some (.CustomScript script), s)
  | 2 :: rest =>
    match readVec readPart rest with
    | .error e => .error e
    | .ok (notes, s) => .ok (some (.SendNotes notes), s)
  | _ :: _ => .error (.InvalidValue "Invalid script template type")

/-- Advice-map entry codec: a digest then a length-prefixed felt sequence. -/
def writeAdviceEntry (p : Digest × List Felt) : Stream :=
  p.1 :: writeVec writeTok p.2

/-- Read one advice-map entry. -/
def readAdviceEntry : Reader (Digest × List Felt)
  | [] => .error .UnexpectedEOF
  | k :: rest =>
    match readVec readTok rest with
    | .error e => .error e
    | .ok (v, s) => .ok ((k, v), s)

/-- Serialization `TransactionRequest::write_into`: the six sections in
source order, the advice map written as the collected entry vector and the
merkle store in its own encoding. -/
def TransactionRequest.write_into (tr : TransactionRequest) : Stream :=
  writeVec writeNote tr.unauthenticated_input_notes ++
  writeMap (writeOpt writeArgs) tr.input_notes ++
  writeTemplate tr.script_template ++
  writeMap writeNote tr.expected_output_notes ++
  writeMap writeDetails tr.expected_future_notes ++
  writeVec writeAdviceEntry tr.advice_map ++
  writeVec writeTok tr.merkle_store

/-- Sequencing of reader results: propagate the error or continue on the
remaining stream. -/
def rbind (x : Except DeserializationError (α × Stream)) (f : α → Reader β) :
    Except DeserializationError (β × Stream) :=
  match x with
  | .error e => .error e
  | .ok (a, s) => f a s

/-- Deserialization `TransactionRequest::read_from`: mirrors each step of
the encoding in order; the advice map is rebuilt by extending an empty map
with the decoded entry vector. No invariant re-validation is performed. -/
def TransactionRequest.read_from : Reader TransactionRequest := fun s =>
  rbind (readVec readNote s) fun unauth s =>
  rbind (readMap (readOpt readArgs) s) fun inp s =>
  rbind (readTemplate s) fun tmpl s =>
  rbind (readMap readNote s) fun eout s =>
  rbind (readMap readDetails s) fun efut s =>
  rbind (readVec readAdviceEntry s) fun adviceVec s =>
  rbind (readVec readTok s) fun mst s =>
    .ok ({ unauthenticated_input_notes := unauth
           input_notes := inp
           script_template := tmpl
           expected_output_notes := eout
           expected_future_notes := efut
           advice_map := adviceExtend [] adviceVec
           merkle_store := mst }, s)

-- CUSTOM EQUALITY
-- ===============

/-- The script-template comparison of the custom `PartialEq`: a
CustomScript pair is compared by the scripts' content commitments, a
SendNotes left operand falls back to structural comparison of the whole
template field, and Unset requires the other side to be Unset. -/
def sameScriptCmp (x y : Option TransactionScriptTemplate) : Bool :=
  match x with
  | some (.CustomScript script) =>
    match y with
    | some (.CustomScript other_script) => decide (other_script.hash = script.hash)
    | _ => false
  | some (.SendNotes _) => decide (x = y)
  | none => y.isNone

/-- The custom `PartialEq` of TransactionRequest: the advice maps are
compared by entry count plus keyed containment, the script templates by
`sameScriptCmp`, and every other field structurally. -/
def TransactionRequest.eq (a b : TransactionRequest) : Bool :=
  let same_advice_map_count := a.advice_map.length == b.advice_map.length
  let same_advice_map := same_advice_map_count &&
    a.advice_map.all fun e =>
      match adviceGet e.1 b.advice_map with
      | some v => decide (v = e.2)
      | none => false
  let same_script := sameScriptCmp a.script_template b.script_template
  same_script &&
    decide (a.unauthenticated_input_notes = b.unauthenticated_input_notes) &&
    decide (a.input_notes = b.input_notes) &&
    decide (a.expected_output_notes = b.expected_output_notes) &&
    decide (a.expected_future_notes = b.expected_future_notes) &&
    same_advice_map &&
    decide (a.merkle_store = b.merkle_store)

-- MAP LEMMAS
-- ==========

theorem mem_mapKeys_mapInsert (k k' : Nat) (v : α) (m : List (Nat × α)) :
    k' ∈ mapKeys (mapInsert k v m) ↔ k' = k ∨ k' ∈ mapKeys m := by
  induction m with
  | nil => simp [mapInsert, mapKeys]
  | cons p rest ih =>
    obtain ⟨k0, v0⟩ := p
    by_cases h1 : k < k0
    · simp [mapInsert, h1, mapKeys]
    · by_cases h2 : k = k0
      · subst h2
        simp [mapInsert, h1, mapKeys]
      · simp only [mapInsert, if_neg h1, if_neg h2, mapKeys, List.map_cons,
          List.mem_cons] at *
        rw [ih]
        tauto

theorem mapLookup_mapInsert (k k' : Nat) (v : α) (m : List (Nat × α)) :
    mapLookup k' (mapInsert k v m) =
      if k = k' then some v else mapLookup k' m := by
  induction m with
  | nil => simp [mapInsert, mapLookup]
  | cons p rest ih =>
    obtain ⟨k0, v0⟩ := p
    by_cases h1 : k < k0
    · by_cases h3 : k = k'
      · subst h3; simp [mapInsert, h1, mapLookup]
      · simp [mapInsert, h1, mapLookup, h3]
    · by_cases h2 : k = k0
      · subst h2
        by_cases h3 : k = k'
        · subst h3; simp [mapInsert, h1, mapLookup]
        · simp [mapInsert, h1, mapLookup, h3]
      · by_cases h4 : k0 = k'
        · subst h4
          have h3 : k ≠ k0 := h2
          simp [mapInsert, h1, h2, mapLookup, Ne.symm h3]
        · simp [mapInsert, h1, h2, mapLookup, h4, ih]

theorem mapInsert_append (k : Nat) (v : α) (m : List (Nat × α))
    (h : ∀ p ∈ m, p.1 < k) : mapInsert k v m = m ++ [(k, v)] := by
  induction m with
  | nil => rfl
  | cons p rest ih =>
    obtain ⟨k0, v0⟩ := p
    have hp : k0 < k := h (k0, v0) (by simp)
    have h1 : ¬ k < k0 := by omega
    have h2 : ¬ k = k0 := by omega
    simp only [mapInsert, if_neg h1, if_neg h2, List.cons_append, List.cons.injEq,
      true_and]
    exact ih fun q hq => h q (by simp [hq])

theorem mapSorted_mapInsert (k : Nat) (v : α) (m : List (Nat × α))
    (h : MapSorted m) : MapSorted (mapInsert k v m) := by
  induction m with
  | nil => simp [mapInsert, MapSorted]
  | cons p rest ih =>
    obtain ⟨k0, v0⟩ := p
    rw [MapSorted, List.pairwise_cons] at h
    obtain ⟨hall, hrest⟩ := h
    by_cases h1 : k < k0
    · simp only [mapInsert, if_pos h1]
      rw [MapSorted, List.pairwise_cons]
      refine ⟨?_, List.pairwise_cons.mpr ⟨hall, hrest⟩⟩
      intro q hq
      rcases List.mem_cons.mp hq with rfl | hq
      · exact h1
      · exact lt_trans h1 (hall q hq)
    · by_cases h2 : k = k0
      · subst h2
        simp only [mapInsert, if_neg h1, if_pos rfl]
        exact List.pairwise_cons.mpr ⟨hall, hrest⟩
      · simp only [mapInsert, if_neg h1, if_neg h2]
        rw [MapSorted, List.pairwise_cons]
        refine ⟨?_, ih hrest⟩
        intro q hq
        rcases (mem_mapKeys_mapInsert k q.1 v rest).mp
          (by simpa [mapKeys] using List.mem_map_of_mem Prod.fst hq) with hk | hk
        · simp only [hk]; omega
        · obtain ⟨q', hq', hfst⟩ := List.mem_map.mp hk
          have := hall q' hq'
          omega

theorem mapSorted_foldl_insert (l : List β) (key : β → Nat) (val : β → α) :
    ∀ acc : List (Nat × α), MapSorted acc →
      MapSorted (l.foldl (fun m p => mapInsert (key p) (val p) m) acc) := by
  induction l with
  | nil => intro acc h; exact h
  | cons p t ih => intro acc h; exact ih _ (mapSorted_mapInsert _ _ _ h)

theorem mapSorted_mapFromList (l : List (Nat × α)) : MapSorted (mapFromList l) :=
  mapSorted_foldl_insert l Prod.fst Prod.snd [] (by simp [MapSorted])

theorem foldl_insert_append (l : List (Nat × α)) :
    ∀ acc : List (Nat × α), MapSorted (acc ++ l) →
      l.foldl (fun m p => mapInsert p.1 p.2 m) acc = acc ++ l := by
  induction l with
  | nil => intro acc _; simp
  | cons p t ih =>
    intro acc h
    have hlt : ∀ q ∈ acc, q.1 < p.1 := by
      intro q hq
      exact (List.pairwise_append.mp h).2.2 q hq p (by simp)
    simp only [List.foldl_cons]
    rw [mapInsert_append p.1 p.2 acc hlt]
    have heq : acc ++ [(p.1, p.2)] ++ t = acc ++ p :: t := by simp
    rw [ih (acc ++ [(p.1, p.2)]) (by rw [heq]; exact h), heq]

theorem mapFromList_of_sorted (l : List (Nat × α)) (h : MapSorted l) :
    mapFromList l = l := by
  have := foldl_insert_append l [] (by simpa using h)
  simpa [mapFromList] using this

-- ADVICE MAP LEMMAS
-- =================

theorem mem_mapKeys_adviceInsert (k k' : Digest) (v : List Felt) (m : AdviceMap) :
    k' ∈ mapKeys (adviceInsert k v m) ↔ k' = k ∨ k' ∈ mapKeys m := by
  induction m with
  | nil => simp [adviceInsert, mapKeys]
  | cons p rest ih =>
    obtain ⟨k0, v0⟩ := p
    by_cases h1 : k = k0
    · subst h1; simp [adviceInsert, mapKeys]
    · simp only [adviceInsert, if_neg h1, mapKeys, List.map_cons, List.mem_cons] at *
      rw [ih]
      tauto

theorem adviceInsert_of_not_mem (k : Digest) (v : List Felt) (m : AdviceMap)
    (h : k ∉ mapKeys m) : adviceInsert k v m = m ++ [(k, v)] := by
  induction m with
  | nil => rfl
  | cons p rest ih =>
    obtain ⟨k0, v0⟩ := p
    simp only [mapKeys, List.map_cons, List.mem_cons] at h
    push_neg at h
    simp only [adviceInsert, if_neg h.1, List.cons_append, List.cons.injEq, true_and]
    exact ih h.2

theorem nodup_adviceInsert (k : Digest) (v : List Felt) (m : AdviceMap)
    (h : (mapKeys m).Nodup) : (mapKeys (adviceInsert k v m)).Nodup := by
  induction m with
  | nil => simp [adviceInsert, mapKeys]
  | cons p rest ih =>
    obtain ⟨k0, v0⟩ := p
    simp only [mapKeys, List.map_cons, List.nodup_cons] at h
    by_cases h1 : k = k0
    · subst h1
      simpa [adviceInsert, mapKeys] using h
    · simp only [adviceInsert, if_neg h1, mapKeys, List.map_cons, List.nodup_cons]
      refine ⟨?_, ih h.2⟩
      intro hc
      rcases (mem_mapKeys_adviceInsert k k0 v rest).mp hc with hk | hk
      · exact h1 hk.symm
      · exact h.1 hk

theorem nodup_adviceExtend (l : List (Digest × List Felt)) :
    ∀ m : AdviceMap, (mapKeys m).Nodup → (mapKeys (adviceExtend m l)).Nodup := by
  induction l with
  | nil => intro m h; exact h
  | cons p t ih =>
    intro m h
    exact ih _ (nodup_adviceInsert p.1 p.2 m h)

theorem adviceExtend_append (l : List (Digest × List Felt)) :
    ∀ m : AdviceMap, (mapKeys (m ++ l)).Nodup → adviceExtend m l = m ++ l := by
  induction l with
  | nil => intro m _; simp [adviceExtend]
  | cons p t ih =>
    intro m h
    have hnot : p.1 ∉ mapKeys m := by
      intro hc
      have : ¬ (mapKeys m).Disjoint (mapKeys (p :: t)) := by
        intro hd
        exact hd hc (by simp [mapKeys])
      simp only [mapKeys, List.map_append] at h
      exact this (List.disjoint_of_nodup_append h)
    have hstep : adviceInsert p.1 p.2 m = m ++ [p] := by
      have := adviceInsert_of_not_mem p.1 p.2 m hnot
      simpa using this
    show adviceExtend (adviceInsert p.1 p.2 m) t = m ++ p :: t
    rw [hstep]
    have heq : m ++ [p] ++ t = m ++ p :: t := by simp
    rw [ih (m ++ [p]) (by rw [heq]; exact h), heq]

theorem adviceExtend_nil_of_nodup (l : List (Digest × List Felt))
    (h : (mapKeys l).Nodup) : adviceExtend [] l = l := by
  have := adviceExtend_append l [] (by simpa using h)
  simpa using this

theorem adviceGet_mem (k : Digest) (m : AdviceMap) (v : List Felt)
    (h : adviceGet k m = some v) : (k, v) ∈ m := by
  induction m with
  | nil => simp [adviceGet] at h
  | cons p rest ih =>
    obtain ⟨k0, v0⟩ := p
    by_cases h1 : k0 = k
    · subst h1
      simp only [adviceGet, if_pos, Option.some.injEq] at h
      subst h
      simp
    · simp only [adviceGet, if_neg h1] at h
      exact List.mem_cons_of_mem _ (ih h)

theorem mem_mapKeys_foldl_insert (l : List β) (key : β → Nat) (val : β → α)
    (k : Nat) :
    ∀ acc : List (Nat × α), k ∈ mapKeys acc →
      k ∈ mapKeys (l.foldl (fun m p => mapInsert (key p) (val p) m) acc) := by
  induction l with
  | nil => intro acc h; exact h
  | cons p t ih =>
    intro acc h
    exact ih _ ((mem_mapKeys_mapInsert (key p) k (val p) acc).mpr (Or.inr h))

theorem mem_mapKeys_foldl_insert_of_mem (l : List β) (key : β → Nat)
    (val : β → α) (p : β) (hp : p ∈ l) :
    ∀ acc : List (Nat × α),
      key p ∈ mapKeys (l.foldl (fun m q => mapInsert (key q) (val q) m) acc) := by
  induction l with
  | nil => simp at hp
  | cons q t ih =>
    intro acc
    rcases List.mem_cons.mp hp with rfl | hp
    · exact mem_mapKeys_foldl_insert t key val (key p) _
        ((mem_mapKeys_mapInsert (key p) (key p) (val p) acc).mpr (Or.inl rfl))
    · exact ih hp _

theorem mapLookup_foldl_insert_of_not_mem (l : List (Note × Option NoteArgs))
    (i : NoteId) (h : ∀ p ∈ l, p.1.id ≠ i) :
    ∀ m : List (NoteId × Option NoteArgs),
      mapLookup i (l.foldl (fun m p => mapInsert p.1.id p.2 m) m) =
        mapLookup i m := by
  induction l with
  | nil => intro m; rfl
  | cons p t ih =>
    intro m
    have hp : p.1.id ≠ i := h p (by simp)
    rw [List.foldl_cons, ih (fun q hq => h q (by simp [hq])) _,
      mapLookup_mapInsert, if_neg hp]

theorem adviceGet_of_nodup_mem (k : Digest) (m : AdviceMap) (v : List Felt)
    (hnd : (mapKeys m).Nodup) (h : (k, v) ∈ m) : adviceGet k m = some v := by
  induction m with
  | nil => simp at h
  | cons p rest ih =>
    obtain ⟨k0, v0⟩ := p
    simp only [mapKeys, List.map_cons, List.nodup_cons] at hnd
    rcases List.mem_cons.mp h with heq | hmem
    · rw [Prod.mk.injEq] at heq
      obtain ⟨rfl, rfl⟩ := heq
      simp [adviceGet]
    · by_cases h1 : k0 = k
      · subst h1
        exfalso
        exact hnd.1 (by simpa [mapKeys] using List.mem_map_of_mem Prod.fst hmem)
      · simp only [adviceGet, if_neg h1]
        exact ih hnd.2 hmem

-- BUILDER CHARACTERIZATION LEMMAS
-- ===============================

namespace TransactionRequest

theorem with_unauth_spec (notes : List (Note × Option NoteArgs)) :
    ∀ tr : TransactionRequest,
      tr.with_unauthenticated_input_notes notes =
        { tr with
          unauthenticated_input_notes :=
            tr.unauthenticated_input_notes ++ notes.map Prod.fst
          input_notes :=
            notes.foldl (fun m p => mapInsert p.1.id p.2 m) tr.input_notes } := by
  induction notes with
  | nil => intro tr; simp [with_unauthenticated_input_notes]
  | cons p t ih =>
    intro tr
    show (unauthStep tr p).with_unauthenticated_input_notes t = _
    rw [ih]
    simp [unauthStep]

theorem with_auth_spec (notes : List (NoteId × Option NoteArgs)) :
    ∀ tr : TransactionRequest,
      tr.with_authenticated_input_notes notes =
        { tr with
          input_notes :=
            notes.foldl (fun m p => mapInsert p.1 p.2 m) tr.input_notes } := by
  induction notes with
  | nil => intro tr; simp [with_authenticated_input_notes]
  | cons p t ih =>
    intro tr
    show with_authenticated_input_notes _ t = _
    rw [ih]
    simp

theorem ownNotesLoop_ok_spec (notes : List OutputNote) :
    ∀ (tr : TransactionRequest) (own : List PartialNote)
      (tr' : TransactionRequest) (own' : List PartialNote),
      ownNotesLoop tr own notes = .ok (tr', own') →
      tr'.unauthenticated_input_notes = tr.unauthenticated_input_notes ∧
      tr'.input_notes = tr.input_notes ∧
      tr'.script_template = tr.script_template ∧
      tr'.expected_future_notes = tr.expected_future_notes ∧
      tr'.advice_map = tr.advice_map ∧
      tr'.merkle_store = tr.merkle_store ∧
      (MapSorted tr.expected_output_notes → MapSorted tr'.expected_output_notes) := by
  induction notes with
  | nil =>
    intro tr own tr' own' h
    simp only [ownNotesLoop, Except.ok.injEq, Prod.mk.injEq] at h
    obtain ⟨rfl, rfl⟩ := h
    exact ⟨rfl, rfl, rfl, rfl, rfl, rfl, fun h => h⟩
  | cons note rest ih =>
    intro tr own tr' own' h
    cases note with
    | Full n =>
      have := ih _ _ _ _ h
      refine ⟨this.1, this.2.1, this.2.2.1, this.2.2.2.1, this.2.2.2.2.1,
        this.2.2.2.2.2.1, ?_⟩
      intro hs
      exact this.2.2.2.2.2.2 (mapSorted_mapInsert _ _ _ hs)
    | Part p => exact ih _ _ _ _ h
    | Header x => simp [ownNotesLoop] at h

theorem ownNotesLoop_header_error (notes : List OutputNote)
    (hmem : ∃ x, OutputNote.Header x ∈ notes) :
    ∀ (tr : TransactionRequest) (own : List PartialNote),
      ownNotesLoop tr own notes = .error .InvalidNoteVariant := by
  induction notes with
  | nil => obtain ⟨x, hx⟩ := hmem; simp at hx
  | cons note rest ih =>
    intro tr own
    obtain ⟨x, hx⟩ := hmem
    cases note with
    | Full n =>
      have : OutputNote.Header x ∈ rest := by
        rcases List.mem_cons.mp hx with h | h
        · exact absurd h (by simp)
        · exact h
      exact ih ⟨x, this⟩ _ _
    | Part p =>
      have : OutputNote.Header x ∈ rest := by
        rcases List.mem_cons.mp hx with h | h
        · exact absurd h (by simp)
        · exact h
      exact ih ⟨x, this⟩ _ _
    | Header y => rfl

theorem with_own_ok_spec (tr : TransactionRequest) (notes : List OutputNote)
    (tr' : TransactionRequest) (h : tr.with_own_output_notes notes = .ok tr') :
    tr.script_template = none ∧
    ∃ tr'' own, ownNotesLoop tr [] notes = .ok (tr'', own) ∧
      tr' = { tr'' with script_template := some (.SendNotes own) } := by
  unfold with_own_output_notes at h
  by_cases hset : tr.script_template.isSome
  · rw [if_pos hset] at h; exact absurd h (by simp)
  · rw [if_neg hset] at h
    refine ⟨Option.not_isSome_iff_eq_none.mp hset, ?_⟩
    cases hloop : ownNotesLoop tr [] notes with
    | error e => rw [hloop] at h; exact absurd h (by simp)
    | ok v =>
      obtain ⟨tr'', own⟩ := v
      rw [hloop] at h
      simp only [Except.ok.injEq] at h
      exact ⟨tr'', own, rfl, h.symm⟩

theorem with_custom_ok_spec (tr : TransactionRequest) (script : TransactionScript)
    (tr' : TransactionRequest) (h : tr.with_custom_script script = .ok tr') :
    tr.script_template = none ∧
    tr' = { tr with script_template := some (.CustomScript script) } := by
  unfold with_custom_script at h
  by_cases hset : tr.script_template.isSome
  · rw [if_pos hset] at h; exact absurd h (by simp)
  · rw [if_neg hset] at h
    simp only [Except.ok.injEq] at h
    exact ⟨Option.not_isSome_iff_eq_none.mp hset, h.symm⟩

-- REACHABILITY AND WELL-FORMEDNESS
-- ================================

/-- Well-formedness of the representation: the three BTreeMap-valued fields
are sorted association lists and the advice map has unique keys. Every
value representable in Rust satisfies this; it is an artifact of the list
model. -/
def WF (tr : TransactionRequest) : Prop :=
  MapSorted tr.input_notes ∧
  MapSorted tr.expected_output_notes ∧
  MapSorted tr.expected_future_notes ∧
  (mapKeys tr.advice_map).Nodup

instance (tr : TransactionRequest) : Decidable (WF tr) := by
  unfold WF; infer_instance

/-- Requests constructible through the public builder operations, starting
from `new()`, with the fallible operations contributing their `Ok` results. -/
inductive Reachable : TransactionRequest → Prop
  | new : Reachable TransactionRequest.new
  | unauth (tr : TransactionRequest) (notes : List (Note × Option NoteArgs)) :
      Reachable tr → Reachable (tr.with_unauthenticated_input_notes notes)
  | auth (tr : TransactionRequest) (notes : List (NoteId × Option NoteArgs)) :
      Reachable tr → Reachable (tr.with_authenticated_input_notes notes)
  | own (tr : TransactionRequest) (notes : List OutputNote)
      (tr' : TransactionRequest) :
      Reachable tr → tr.with_own_output_notes notes = .ok tr' → Reachable tr'
  | custom (tr : TransactionRequest) (script : TransactionScript)
      (tr' : TransactionRequest) :
      Reachable tr → tr.with_custom_script script = .ok tr' → Reachable tr'
  | eout (tr : TransactionRequest) (notes : List Note) :
      Reachable tr → Reachable (tr.with_expected_output_notes notes)
  | efut (tr : TransactionRequest) (notes : List NoteDetails) :
      Reachable tr → Reachable (tr.with_expected_future_notes notes)
  | advice (tr : TransactionRequest) (entries : List (Digest × List Felt)) :
      Reachable tr → Reachable (tr.extend_advice_map entries)
  | merkle (tr : TransactionRequest) (entries : List Nat) :
      Reachable tr → Reachable (tr.extend_merkle_store entries)

theorem reachable_wf (tr : TransactionRequest) (h : Reachable tr) : WF tr := by
  induction h with
  | new => exact ⟨by simp [new, MapSorted], by simp [new, MapSorted],
      by simp [new, MapSorted], by simp [new, mapKeys]⟩
  | unauth tr notes _ ih =>
    obtain ⟨h1, h2, h3, h4⟩ := ih
    rw [with_unauth_spec]
    exact ⟨mapSorted_foldl_insert notes (fun p => p.1.id) Prod.snd
      tr.input_notes h1, h2, h3, h4⟩
  | auth tr notes _ ih =>
    obtain ⟨h1, h2, h3, h4⟩ := ih
    rw [with_auth_spec]
    exact ⟨mapSorted_foldl_insert notes Prod.fst Prod.snd
      tr.input_notes h1, h2, h3, h4⟩
  | own tr notes tr' _ hok ih =>
    obtain ⟨h1, h2, h3, h4⟩ := ih
    obtain ⟨-, tr'', own, hloop, rfl⟩ := with_own_ok_spec tr notes tr' hok
    have hspec := ownNotesLoop_ok_spec notes tr [] tr'' own hloop
    exact ⟨by simpa [hspec.2.1] using h1, by simpa using hspec.2.2.2.2.2.2 h2,
      by simpa [hspec.2.2.2.1] using h3, by simpa [hspec.2.2.2.2.1] using h4⟩
  | custom tr script tr' _ hok ih =>
    obtain ⟨h1, h2, h3, h4⟩ := ih
    obtain ⟨-, rfl⟩ := with_custom_ok_spec tr script tr' hok
    exact ⟨h1, h2, h3, h4⟩
  | eout tr notes _ ih =>
    obtain ⟨h1, h2, h3, h4⟩ := ih
    exact ⟨h1, mapSorted_mapFromList _, h3, h4⟩
  | efut tr notes _ ih =>
    obtain ⟨h1, h2, h3, h4⟩ := ih
    exact ⟨h1, h2, mapSorted_mapFromList _, h4⟩
  | advice tr entries _ ih =>
    obtain ⟨h1, h2, h3, h4⟩ := ih
    exact ⟨h1, h2, h3, nodup_adviceExtend _ _ h4⟩
  | merkle tr entries _ ih =>
    obtain ⟨h1, h2, h3, h4⟩ := ih
    exact ⟨h1, h2, h3, h4⟩

end TransactionRequest

-- CODEC ROUND-TRIP LEMMAS
-- =======================

/-- Round-trip property of a reader/writer pair, up to the renormalization
`f` applied by decoding. -/
def RT (rd : Reader α) (wr : α → Stream) (f : α → α) : Prop :=
  ∀ x rest, rd (wr x ++ rest) = .ok (f x, rest)

theorem RT.congr {rd : Reader α} {wr : α → Stream} {f : α → α}
    (h : RT rd wr f) (hf : ∀ x, f x = x) : RT rd wr id := by
  intro x rest
  rw [h x rest, hf x]
  rfl

theorem rbind_ok (a : α) (s : Stream) (f : α → Reader β) :
    rbind (.ok (a, s)) f = f a s := rfl

theorem rt_tok : RT readTok writeTok id := fun _ _ => rfl

theorem rt_args : RT readArgs writeArgs id := fun x _ => by cases x; rfl

theorem rt_note : RT readNote writeNote id := fun x _ => by cases x; rfl

theorem rt_details : RT readDetails writeDetails id := fun x _ => by cases x; rfl

theorem rt_part : RT readPart writePart id := fun x _ => by cases x; rfl

theorem rt_script : RT readScript writeScript (fun s => ⟨s.hash, 0⟩) :=
  fun x _ => by cases x; rfl

theorem rt_opt {rd : Reader α} {wr : α → Stream} {f : α → α} (h : RT rd wr f) :
    RT (readOpt rd) (writeOpt wr) (Option.map f) := by
  intro x rest
  cases x with
  | none => rfl
  | some a =>
    show readOpt rd (1 :: (wr a ++ rest)) = _
    simp [readOpt, h a rest]

theorem rt_pair {rd : Reader α} {wr : α → Stream} {f : α → α} (h : RT rd wr f) :
    RT (readPair rd) (writePair wr) (fun p => (p.1, f p.2)) := by
  intro p rest
  obtain ⟨k, v⟩ := p
  show readPair rd (k :: (wr v ++ rest)) = _
  simp [readPair, h v rest]

theorem rt_readN {rd : Reader α} {wr : α → Stream} {f : α → α} (h : RT rd wr f)
    (l : List α) : ∀ rest, readN rd l.length ((l.map wr).flatten ++ rest) =
      .ok (l.map f, rest) := by
  induction l with
  | nil => intro rest; rfl
  | cons x t ih =>
    intro rest
    show readN rd (t.length + 1) ((wr x ++ (t.map wr).flatten) ++ rest) = _
    rw [List.append_assoc]
    simp only [readN]
    rw [h x ((t.map wr).flatten ++ rest)]
    simp [ih rest]

theorem rt_vec {rd : Reader α} {wr : α → Stream} {f : α → α} (h : RT rd wr f) :
    RT (readVec rd) (writeVec wr) (List.map f) := by
  intro l rest
  show readVec rd ((l.length :: (l.map wr).flatten) ++ rest) = _
  rw [List.cons_append]
  show readN rd l.length ((l.map wr).flatten ++ rest) = _
  exact rt_readN h l rest

theorem rt_vec_id {rd : Reader α} {wr : α → Stream} (h : RT rd wr id) :
    RT (readVec rd) (writeVec wr) id :=
  (rt_vec h).congr fun l => List.map_id l

theorem rt_optargs : RT (readOpt readArgs) (writeOpt writeArgs) id :=
  (rt_opt rt_args).congr fun x => by cases x <;> rfl

theorem rt_adviceEntry : RT readAdviceEntry writeAdviceEntry id := by
  intro p rest
  obtain ⟨k, v⟩ := p
  show readAdviceEntry (k :: (writeVec writeTok v ++ rest)) = _
  simp [readAdviceEntry, rt_vec_id rt_tok v rest]

/-- The renormalization applied to the script template by a decode of an
encode: a CustomScript's structural representation is not preserved, only
its content commitment; Unset and SendNotes are preserved exactly. -/
def normTemplate : Option TransactionScriptTemplate →
    Option TransactionScriptTemplate
  | none => none
  | some (.CustomScript s) => some (.CustomScript ⟨s.hash, 0⟩)
  | some (.SendNotes l) => some (.SendNotes l)

theorem rt_template : RT readTemplate writeTemplate normTemplate := by
  intro x rest
  match x with
  | none => rfl
  | some (.CustomScript s) =>
    show readTemplate (1 :: (writeScript s ++ rest)) = _
    simp [readTemplate, rt_script s rest, normTemplate]
  | some (.SendNotes l) =>
    show readTemplate (2 :: (writeVec writePart l ++ rest)) = _
    simp [readTemplate, rt_vec_id rt_part l rest, normTemplate]

theorem rt_map {rd : Reader α} {wr : α → Stream} (h : RT rd wr id)
    (m : List (Nat × α)) (hs : MapSorted m) :
    ∀ rest, readMap rd (writeMap wr m ++ rest) = .ok (m, rest) := by
  intro rest
  have hvec := rt_vec (rt_pair h) m rest
  simp only [readMap, writeMap]
  rw [hvec]
  have hmap : m.map (fun p => (p.1, id p.2)) = m := by
    simp
  rw [hmap]
  simp [mapFromList_of_sorted m hs]

/-- Decode of encode, on any well-formed request and with any trailing
stream: succeeds, consumes exactly the encoding, and yields the request
with its script template renormalized. -/
theorem read_from_write_into (tr : TransactionRequest) (hWF : tr.WF)
    (rest : Stream) :
    TransactionRequest.read_from (tr.write_into ++ rest) =
      .ok ({ tr with script_template := normTemplate tr.script_template },
        rest) := by
  obtain ⟨h1, h2, h3, h4⟩ := hWF
  show TransactionRequest.read_from _ = _
  rw [TransactionRequest.write_into]
  rw [TransactionRequest.read_from.eq_def]
  simp only [List.append_assoc]
  rw [rt_vec_id rt_note, rbind_ok]
  rw [rt_map rt_optargs _ h1, rbind_ok]
  rw [rt_template, rbind_ok]
  rw [rt_map rt_note _ h2, rbind_ok]
  rw [rt_map rt_details _ h3, rbind_ok]
  rw [rt_vec_id rt_adviceEntry, rbind_ok]
  rw [rt_vec_id rt_tok, rbind_ok]
  simp only [id_eq]
  rw [adviceExtend_nil_of_nodup _ h4]

-- EQUALITY LEMMAS
-- ===============

theorem advice_self_all (m : AdviceMap) (h : (mapKeys m).Nodup) :
    (m.all fun e =>
      match adviceGet e.1 m with
      | some v => decide (v = e.2)
      | none => false) = true := by
  rw [List.all_eq_true]
  intro e he
  have hm : (e.1, e.2) ∈ m := by simpa using he
  rw [adviceGet_of_nodup_mem e.1 m e.2 h hm]
  simp

theorem eq_norm (tr : TransactionRequest)
    (h4 : (mapKeys tr.advice_map).Nodup) :
    tr.eq { tr with script_template := normTemplate tr.script_template }
      = true := by
  have hall := advice_self_all tr.advice_map h4
  cases htmpl : tr.script_template with
  | none => simp [TransactionRequest.eq, sameScriptCmp, htmpl, normTemplate, hall]
  | some t =>
    cases t with
    | CustomScript s =>
      simp [TransactionRequest.eq, sameScriptCmp, htmpl, normTemplate, hall]
    | SendNotes l =>
      simp [TransactionRequest.eq, sameScriptCmp, htmpl, normTemplate, hall]

theorem eq_norm_symm (tr : TransactionRequest)
    (h4 : (mapKeys tr.advice_map).Nodup) :
    TransactionRequest.eq
      { tr with script_template := normTemplate tr.script_template } tr
      = true := by
  have hall := advice_self_all tr.advice_map h4
  cases htmpl : tr.script_template with
  | none => simp [TransactionRequest.eq, sameScriptCmp, htmpl, normTemplate, hall]
  | some t =>
    cases t with
    | CustomScript s =>
      simp [TransactionRequest.eq, sameScriptCmp, htmpl, normTemplate, hall]
    | SendNotes l =>
      simp [TransactionRequest.eq, sameScriptCmp, htmpl, normTemplate, hall]

theorem match_adviceGet_eq (k : Digest) (x : List Felt) (m : AdviceMap) :
    (match adviceGet k m with
      | some v => decide (v = x)
      | none => false) = true ↔ adviceGet k m = some x := by
  cases h : adviceGet k m <;> simp [h]

-- SPEC-SIDE EQUALITY (refinement definitions for claim C5, stated from the
-- spec's words in §4.4, to be compared with the source-derived eq)
-- ===============================================================

/-- Spec wording: script templates "agree" when a CustomScript pair has
equal content commitments while SendNotes and Unset compare structurally. -/
def specTemplateAgree : Option TransactionScriptTemplate →
    Option TransactionScriptTemplate → Prop
  | none, none => True
  | some (.CustomScript s), some (.CustomScript s') => s.hash = s'.hash
  | some (.SendNotes l), some (.SendNotes l') => l = l'
  | _, _ => False

/-- Spec wording of §4.4 equality: advice maps hold the same set of
entries irrespective of order with matching entry counts, templates agree,
and the remaining five fields compare structurally. -/
def specRequestEq (a b : TransactionRequest) : Prop :=
  ((∀ e, e ∈ a.advice_map ↔ e ∈ b.advice_map) ∧
    a.advice_map.length = b.advice_map.length) ∧
  specTemplateAgree a.script_template b.script_template ∧
  a.unauthenticated_input_notes = b.unauthenticated_input_notes ∧
  a.input_notes = b.input_notes ∧
  a.expected_output_notes = b.expected_output_notes ∧
  a.expected_future_notes = b.expected_future_notes ∧
  a.merkle_store = b.merkle_store

theorem script_cmp_iff (x y : Option TransactionScriptTemplate) :
    sameScriptCmp x y = true ↔ specTemplateAgree x y := by
  match x, y with
  | none, none => simp [sameScriptCmp, specTemplateAgree]
  | none, some t => cases t <;> simp [sameScriptCmp, specTemplateAgree]
  | some (.CustomScript s), none => simp [sameScriptCmp, specTemplateAgree]
  | some (.CustomScript s), some (.CustomScript t) =>
    simp [sameScriptCmp, specTemplateAgree, eq_comm]
  | some (.CustomScript s), some (.SendNotes l) =>
    simp [sameScriptCmp, specTemplateAgree]
  | some (.SendNotes l), none => simp [sameScriptCmp, specTemplateAgree]
  | some (.SendNotes l), some (.CustomScript t) =>
    simp [sameScriptCmp, specTemplateAgree]
  | some (.SendNotes l), some (.SendNotes l') =>
    simp [sameScriptCmp, specTemplateAgree]

-- CLAIM THEOREMS
-- ==============

/-- C1: for every TransactionRequest R constructed through the public
builder operations (with any of the three script-template states),
deserializing the bytes produced by serializing R succeeds, consumes the
whole stream, and yields a request equal to R under the custom equality
of §4.4, in both orientations. -/
theorem C1_serialization_roundtrip (R : TransactionRequest)
    (h : TransactionRequest.Reachable R) :
    ∃ R', TransactionRequest.read_from R.write_into = .ok (R', []) ∧
      R.eq R' = true ∧ R'.eq R = true := by
  have hWF := TransactionRequest.reachable_wf R h
  refine ⟨{ R with script_template := normTemplate R.script_template },
    ?_, ?_, ?_⟩
  · simpa using read_from_write_into R hWF []
  · exact eq_norm R hWF.2.2.2
  · exact eq_norm_symm R hWF.2.2.2

/-- Witness for C1 at a concrete builder-constructed request. -/
theorem C1_serialization_roundtrip_witness :
    ∃ R', TransactionRequest.read_from
        (TransactionRequest.new.with_unauthenticated_input_notes
          [(⟨4, 9⟩, some ⟨1, 2, 3, 4⟩)]).write_into = .ok (R', []) ∧
      (TransactionRequest.new.with_unauthenticated_input_notes
        [(⟨4, 9⟩, some ⟨1, 2, 3, 4⟩)]).eq R' = true ∧
      R'.eq (TransactionRequest.new.with_unauthenticated_input_notes
        [(⟨4, 9⟩, some ⟨1, 2, 3, 4⟩)]) = true :=
  C1_serialization_roundtrip _
    (TransactionRequest.Reachable.unauth _ _ TransactionRequest.Reachable.new)

/-- C2: once a script template is set, both template-setting builders fail
with a ScriptTemplateError. The builders consume the request and return
only the error, so no mutated request value is observable and the caller's
value (the argument, untouched by a pure function) keeps every field
including the already-set template. -/
theorem C2_template_mutual_exclusion (tr : TransactionRequest)
    (t : TransactionScriptTemplate) (h : tr.script_template = some t)
    (script : TransactionScript) (notes : List OutputNote) :
    tr.with_custom_script script = .error (.ScriptTemplateError
      "Cannot set custom script when a script template is already set") ∧
    tr.with_own_output_notes notes = .error (.ScriptTemplateError
      "Cannot set own notes when a script template is already set") := by
  constructor
  · simp [TransactionRequest.with_custom_script, h]
  · simp [TransactionRequest.with_own_output_notes, h]

/-- Witness for C2 with a SendNotes template already set. -/
theorem C2_template_mutual_exclusion_witness :
    ({ TransactionRequest.new with
        script_template := some (.SendNotes []) } :
      TransactionRequest).with_custom_script ⟨0, 0⟩ =
      .error (.ScriptTemplateError
        "Cannot set custom script when a script template is already set") ∧
    ({ TransactionRequest.new with
        script_template := some (.SendNotes []) } :
      TransactionRequest).with_own_output_notes [] =
      .error (.ScriptTemplateError
        "Cannot set own notes when a script template is already set") :=
  C2_template_mutual_exclusion _ (.SendNotes []) rfl ⟨0, 0⟩ []

/-- C3: with no template set, a note list containing a header-only note
makes with_own_output_notes fail with InvalidNoteVariant; the call returns
only the error, so none of the notes is registered in any observable
request value and the caller's argument keeps its expected_output_notes
and script_template. -/
theorem C3_header_note_rejection (tr : TransactionRequest)
    (notes : List OutputNote) (hnone : tr.script_template = none)
    (x : Nat) (hmem : OutputNote.Header x ∈ notes) :
    tr.with_own_output_notes notes = .error .InvalidNoteVariant := by
  unfold TransactionRequest.with_own_output_notes
  rw [if_neg (by rw [hnone]; simp)]
  rw [TransactionRequest.ownNotesLoop_header_error notes ⟨x, hmem⟩ tr []]

/-- Witness for C3 with one valid full note before the header note. -/
theorem C3_header_note_rejection_witness :
    TransactionRequest.new.with_own_output_notes
      [.Full ⟨1, 1⟩, .Header 0] = .error .InvalidNoteVariant :=
  C3_header_note_rejection TransactionRequest.new
    [.Full ⟨1, 1⟩, .Header 0] rfl 0 (by simp)

/-- C4: on every builder-reachable request, each unauthenticated note's id
is a key of the input_notes map. -/
theorem C4_unauthenticated_ids_are_input_keys (tr : TransactionRequest)
    (h : TransactionRequest.Reachable tr) :
    ∀ n ∈ tr.unauthenticated_input_notes, n.id ∈ mapKeys tr.input_notes := by
  induction h with
  | new => intro n hn; simp [TransactionRequest.new] at hn
  | unauth tr notes _ ih =>
    rw [TransactionRequest.with_unauth_spec]
    intro n hn
    rcases List.mem_append.mp hn with hold | hnew
    · exact mem_mapKeys_foldl_insert notes (fun p => p.1.id) Prod.snd n.id _
        (ih n hold)
    · obtain ⟨p, hp, rfl⟩ := List.mem_map.mp hnew
      exact mem_mapKeys_foldl_insert_of_mem notes (fun p => p.1.id)
        Prod.snd p hp _
  | auth tr notes _ ih =>
    rw [TransactionRequest.with_auth_spec]
    intro n hn
    exact mem_mapKeys_foldl_insert notes Prod.fst Prod.snd n.id _ (ih n hn)
  | own tr notes tr' _ hok ih =>
    obtain ⟨-, tr'', own, hloop, rfl⟩ :=
      TransactionRequest.with_own_ok_spec tr notes tr' hok
    have hspec := TransactionRequest.ownNotesLoop_ok_spec notes tr [] tr'' own hloop
    intro n hn
    have hn' : n ∈ tr.unauthenticated_input_notes := by
      rw [← hspec.1]; exact hn
    show n.id ∈ mapKeys tr''.input_notes
    rw [hspec.2.1]
    exact ih n hn'
  | custom tr script tr' _ hok ih =>
    obtain ⟨-, rfl⟩ := TransactionRequest.with_custom_ok_spec tr script tr' hok
    intro n hn
    exact ih n hn
  | eout tr notes _ ih =>
    intro n hn
    exact ih n hn
  | efut tr notes _ ih =>
    intro n hn
    exact ih n hn
  | advice tr entries _ ih =>
    intro n hn
    exact ih n hn
  | merkle tr entries _ ih =>
    intro n hn
    exact ih n hn

/-- Witness for C4 on a concrete reachable request and note. -/
theorem C4_unauthenticated_ids_are_input_keys_witness :
    Note.id ⟨7, 1⟩ ∈ mapKeys (TransactionRequest.new.with_unauthenticated_input_notes
      [(⟨7, 1⟩, none)]).input_notes :=
  C4_unauthenticated_ids_are_input_keys _
    (TransactionRequest.Reachable.unauth _ _ TransactionRequest.Reachable.new)
    ⟨7, 1⟩ (by decide)

/-- C5: the custom equality holds iff the spec's characterization of §4.4
holds, for requests whose advice maps have unique keys (as every AdviceMap
value in the Rust representation does). -/
theorem C5_equality_characterization (a b : TransactionRequest)
    (ha : (mapKeys a.advice_map).Nodup) (hb : (mapKeys b.advice_map).Nodup) :
    a.eq b = true ↔ specRequestEq a b := by
  unfold TransactionRequest.eq specRequestEq
  simp only [Bool.and_eq_true, beq_iff_eq, decide_eq_true_eq,
    List.all_eq_true, script_cmp_iff]
  constructor
  · rintro ⟨⟨⟨⟨⟨⟨hs, hu⟩, hi⟩, heo⟩, hef⟩, hcount, hall⟩, hm⟩
    refine ⟨⟨?_, hcount⟩, hs, hu, hi, heo, hef, hm⟩
    have hsub : a.advice_map ⊆ b.advice_map := by
      intro e he
      have h := hall e he
      simp only [match_adviceGet_eq] at h
      have := adviceGet_mem e.1 b.advice_map e.2 h
      simpa using this
    have hnda : a.advice_map.Nodup := List.Nodup.of_map Prod.fst ha
    have hndb : b.advice_map.Nodup := List.Nodup.of_map Prod.fst hb
    have hperm : a.advice_map.Perm b.advice_map :=
      (List.subperm_of_subset hnda hsub).perm_of_length_le
        (le_of_eq hcount.symm)
    exact fun e => hperm.mem_iff
  · rintro ⟨⟨hset, hcount⟩, hs, hu, hi, heo, hef, hm⟩
    refine ⟨⟨⟨⟨⟨⟨hs, hu⟩, hi⟩, heo⟩, hef⟩, hcount, ?_⟩, hm⟩
    intro e he
    simp only [match_adviceGet_eq]
    have heb : (e.1, e.2) ∈ b.advice_map := by
      simpa using (hset e).mp he
    exact adviceGet_of_nodup_mem e.1 b.advice_map e.2 hb heb

/-- Witness for C5 on two concrete requests with unique-keyed advice maps. -/
theorem C5_equality_characterization_witness :
    (TransactionRequest.new.extend_advice_map [(1, [2]), (3, [4])]).eq
        (TransactionRequest.new.extend_advice_map [(3, [4]), (1, [2])]) = true ↔
      specRequestEq
        (TransactionRequest.new.extend_advice_map [(1, [2]), (3, [4])])
        (TransactionRequest.new.extend_advice_map [(3, [4]), (1, [2])]) :=
  C5_equality_characterization _ _ (by decide) (by decide)

/-- C6: the template discriminant byte is 0 for Unset, 1 for CustomScript
followed by the serialized script, 2 for SendNotes followed by the
length-prefixed partial-note list; every other discriminant value makes
decoding return the descriptive InvalidValue stream-corruption error. -/
theorem C6_template_discriminant (b : Nat)
    (h0 : b ≠ 0) (h1 : b ≠ 1) (h2 : b ≠ 2) :
    writeTemplate none = [0] ∧
    (∀ script : TransactionScript,
      writeTemplate (some (.CustomScript script)) = 1 :: writeScript script) ∧
    (∀ notes : List PartialNote,
      writeTemplate (some (.SendNotes notes)) = 2 :: writeVec writePart notes) ∧
    (∀ rest : Stream, readTemplate (b :: rest) =
      .error (.InvalidValue "Invalid script template type")) := by
  refine ⟨rfl, fun _ => rfl, fun _ => rfl, fun rest => ?_⟩
  match b, h0, h1, h2 with
  | 0, h0, _, _ => exact absurd rfl h0
  | 1, _, h1, _ => exact absurd rfl h1
  | 2, _, _, h2 => exact absurd rfl h2
  | n + 3, _, _, _ => rfl

/-- Witness for C6 at discriminant byte 7. -/
theorem C6_template_discriminant_witness :
    writeTemplate none = [0] ∧
    (∀ script : TransactionScript,
      writeTemplate (some (.CustomScript script)) = 1 :: writeScript script) ∧
    (∀ notes : List PartialNote,
      writeTemplate (some (.SendNotes notes)) = 2 :: writeVec writePart notes) ∧
    (∀ rest : Stream, readTemplate (7 :: rest) =
      .error (.InvalidValue "Invalid script template type")) :=
  C6_template_discriminant 7 (by decide) (by decide) (by decide)

/-- C7: membership in authenticated_input_note_ids is exactly membership in
the input-notes key set minus the unauthenticated id list; the accessor is
a pure function of the two fields, recomputed on each call. -/
theorem C7_authenticated_ids_set_difference (tr : TransactionRequest)
    (i : NoteId) :
    i ∈ tr.authenticated_input_note_ids ↔
      i ∈ mapKeys tr.input_notes ∧
      i ∉ tr.unauthenticated_input_note_ids := by
  unfold TransactionRequest.authenticated_input_note_ids
  simp [mapKeys, List.mem_filter]

/-- C8: when the same note id occurs twice in one
with_unauthenticated_input_notes call, the map keeps the args of the last
occurrence for that id while the unauthenticated list appends every
occurrence in order, so it gains a duplicate entry for the id. -/
theorem C8_duplicate_note_id (tr : TransactionRequest)
    (l1 l2 : List (Note × Option NoteArgs)) (n1 n2 : Note)
    (a1 a2 : Option NoteArgs) (i : NoteId)
    (h1 : n1.id = i) (h2 : n2.id = i) (hmem : (n1, a1) ∈ l1)
    (hlast : ∀ p ∈ l2, p.1.id ≠ i) :
    mapLookup i (tr.with_unauthenticated_input_notes
      (l1 ++ (n2, a2) :: l2)).input_notes = some a2 ∧
    (tr.with_unauthenticated_input_notes
        (l1 ++ (n2, a2) :: l2)).unauthenticated_input_notes =
      tr.unauthenticated_input_notes ++ (l1 ++ (n2, a2) :: l2).map Prod.fst ∧
    2 ≤ ((l1 ++ (n2, a2) :: l2).map Prod.fst).countP
      (fun n => decide (n.id = i)) := by
  rw [TransactionRequest.with_unauth_spec]
  refine ⟨?_, rfl, ?_⟩
  · show mapLookup i ((l1 ++ (n2, a2) :: l2).foldl
      (fun m p => mapInsert p.1.id p.2 m) tr.input_notes) = some a2
    rw [List.foldl_append, List.foldl_cons,
      mapLookup_foldl_insert_of_not_mem l2 i hlast, mapLookup_mapInsert]
    simp [h2]
  · rw [List.map_append, List.countP_append]
    have hc1 : 0 < (l1.map Prod.fst).countP (fun n => decide (n.id = i)) := by
      rw [List.countP_pos_iff]
      exact ⟨n1, List.mem_map_of_mem Prod.fst hmem, by simp [h1]⟩
    have hc2 : 0 < (((n2, a2) :: l2).map Prod.fst).countP
        (fun n => decide (n.id = i)) := by
      rw [List.countP_pos_iff]
      exact ⟨n2, by simp, by simp [h2]⟩
    omega

/-- Witness for C8: the same id 5 supplied twice with different args. -/
theorem C8_duplicate_note_id_witness :
    mapLookup 5 (TransactionRequest.new.with_unauthenticated_input_notes
      ([((⟨5, 0⟩ : Note), (none : Option NoteArgs))] ++
        ((⟨5, 0⟩ : Note), some (⟨1, 2, 3, 4⟩ : NoteArgs)) :: [])).input_notes =
      some (some ⟨1, 2, 3, 4⟩) ∧
    (TransactionRequest.new.with_unauthenticated_input_notes
        ([((⟨5, 0⟩ : Note), (none : Option NoteArgs))] ++
          ((⟨5, 0⟩ : Note), some (⟨1, 2, 3, 4⟩ : NoteArgs)) :: [])).unauthenticated_input_notes =
      TransactionRequest.new.unauthenticated_input_notes ++
        ([((⟨5, 0⟩ : Note), (none : Option NoteArgs))] ++
          ((⟨5, 0⟩ : Note), some (⟨1, 2, 3, 4⟩ : NoteArgs)) :: []).map Prod.fst ∧
    2 ≤ (([((⟨5, 0⟩ : Note), (none : Option NoteArgs))] ++
        ((⟨5, 0⟩ : Note), some (⟨1, 2, 3, 4⟩ : NoteArgs)) :: []).map Prod.fst).countP
      (fun n => decide (n.id = 5)) :=
  C8_duplicate_note_id TransactionRequest.new [(⟨5, 0⟩, none)] [] ⟨5, 0⟩ ⟨5, 0⟩
    none (some ⟨1, 2, 3, 4⟩) 5 rfl rfl (by simp) (by simp)

/-- C9: deserialization re-validates nothing: a well-formed stream whose
unauthenticated-note section holds a note whose id is not a key of the
encoded input_notes association list decodes to Ok with a request that
violates Invariant 1. -/
theorem C9_decode_skips_invariant_validation :
    TransactionRequest.read_from
        (TransactionRequest.mk [⟨5, 0⟩] [] none [] [] [] []).write_into =
      .ok (TransactionRequest.mk [⟨5, 0⟩] [] none [] [] [] [], []) ∧
    (⟨5, 0⟩ : Note) ∈
      (TransactionRequest.mk [⟨5, 0⟩] [] none [] [] [] []).unauthenticated_input_notes ∧
    Note.id ⟨5, 0⟩ ∉
      mapKeys (TransactionRequest.mk [⟨5, 0⟩] [] none [] [] [] []).input_notes := by
  refine ⟨by rfl, by simp, by simp [mapKeys]⟩

/-- C10: adding an id that is already unauthenticated through
with_authenticated_input_notes overwrites its args in input_notes but does
not reclassify it: it stays outside authenticated_input_note_ids and inside
unauthenticated_input_note_ids. -/
theorem C10_auth_insert_keeps_classification (tr : TransactionRequest)
    (i : NoteId) (a : Option NoteArgs)
    (hmem : i ∈ tr.unauthenticated_input_note_ids) :
    mapLookup i (tr.with_authenticated_input_notes [(i, a)]).input_notes =
      some a ∧
    i ∉ (tr.with_authenticated_input_notes [(i, a)]).authenticated_input_note_ids ∧
    i ∈ (tr.with_authenticated_input_notes [(i, a)]).unauthenticated_input_note_ids := by
  rw [TransactionRequest.with_auth_spec]
  refine ⟨?_, ?_, ?_⟩
  · show mapLookup i ([(i, a)].foldl
      (fun m p => mapInsert p.1 p.2 m) tr.input_notes) = some a
    rw [List.foldl_cons, List.foldl_nil, mapLookup_mapInsert]
    simp
  · intro hc
    have h2 := (List.mem_filter.mp hc).2
    rw [decide_eq_true_eq] at h2
    exact h2 hmem
  · exact hmem

/-- Witness for C10 on a request with one unauthenticated note of id 3. -/
theorem C10_auth_insert_keeps_classification_witness :
    mapLookup 3 ((TransactionRequest.new.with_unauthenticated_input_notes
        [(⟨3, 0⟩, none)]).with_authenticated_input_notes
        [(3, some ⟨9, 9, 9, 9⟩)]).input_notes = some (some ⟨9, 9, 9, 9⟩) ∧
    3 ∉ ((TransactionRequest.new.with_unauthenticated_input_notes
        [(⟨3, 0⟩, none)]).with_authenticated_input_notes
        [(3, some ⟨9, 9, 9, 9⟩)]).authenticated_input_note_ids ∧
    3 ∈ ((TransactionRequest.new.with_unauthenticated_input_notes
        [(⟨3, 0⟩, none)]).with_authenticated_input_notes
        [(3, some ⟨9, 9, 9, 9⟩)]).unauthenticated_input_note_ids :=
  C10_auth_insert_keeps_classification _ 3 (some ⟨9, 9, 9, 9⟩) (by decide)

end MidenRequest
